import Mathlib
/-!
# Verification of the CLI diff client (editing-overlay engine)

Shallow embedding of `CliDiffClient` (`src/hosts` CLI implementation of the
DiffService client): the in-memory overlay store (`openDocuments`), the range
editor (`replaceText`), the truncator (`truncateDocument`), the persistence
gate (`saveDocument`), the batch open (`openMultiFileDiff`), path
canonicalization (`resolveFilePath`) and the diff presenter (`displayDiff`).

JavaScript string and array operations that the source relies on are embedded
faithfully on `List Char` / `List`:
* `s.split("\n")` / `arr.join("\n")`  →  `splitNl` / `joinNl`;
* `arr.slice(a, b)` with JavaScript negative-index semantics  →  `jsSlice`;
* `arr.filter((x, i) => ...)`  →  `jsFilterIdx`;
* the truthiness of `x || y` on strings and numbers is spelled out at each
  use site (`""` and `0` are falsy).

Filesystem effects are modelled by an explicit map `fs : String → Option String`
(`none` = the read throws) and, for `saveDocument`, by two Booleans saying
whether `fs.mkdir` and `fs.writeFile` succeed.
-/
/-! ## JavaScript primitives on lists -/
/-- Prepend a character to the first piece of a split result
(used by `splitNl`; a split result is never empty). -/
def consHead (c : Char) : List (List Char) → List (List Char)
  | [] => [[c]]
  | l :: ls => (c :: l) :: ls
/-- `cs.split('\n')` on a character list: splits at every `'\n'`, keeping empty
pieces; the result is always nonempty (JavaScript `"".split("\n") = [""]`). -/
def splitNl : List Char → List (List Char)
  | [] => [[]]
  | c :: cs => if c = '\n' then [] :: splitNl cs else consHead c (splitNl cs)
/-- `pieces.join('\n')` on character lists. -/
def joinNl : List (List Char) → List Char
  | [] => []
  | [x] => x
  | x :: y :: ys => x ++ '\n' :: joinNl (y :: ys)
/-- Clamp a JavaScript slice index: a negative index counts from the end
(`max(len + i, 0)`), a nonnegative one is clamped to `len` (`min(i, len)`). -/
def jsIndex (len : Nat) (i : Int) : Nat :=
  if i < 0 then len - (-i).toNat else min i.toNat len
/-- `arr.slice(s, e)` (JavaScript `Array.prototype.slice`): the elements from
index `jsIndex len s` up to, but excluding, `jsIndex len e`; an absent second
argument means "to the end". -/
def jsSlice {α : Type} (l : List α) (s : Int) (e : Option Int) : List α :=
  let a := jsIndex l.length s
  let b := match e with
    | none => l.length
    | some e => jsIndex l.length e
  (l.take b).drop a
/-- `arr.filter((x, i) => f x i)` (JavaScript `Array.prototype.filter` with the
index argument), starting at index `i`. -/
def jsFilterIdx (f : String → Nat → Bool) : Nat → List String → List String
  | _, [] => []
  | i, x :: xs =>
    if f x i then x :: jsFilterIdx f (i + 1) xs else jsFilterIdx f (i + 1) xs
/-! ## Strings as line lists -/
/-- `s.split("\n")` at the `String` level. -/
def splitLines (s : String) : List String :=
  (splitNl s.data).map (fun l => String.mk l)
/-- `lines.join("\n")` at the `String` level. -/
def joinLines (l : List String) : String :=
  String.mk (joinNl (l.map String.data))
/-- Number of lines of a content string, in the sense the source uses
(`content.split("\n").length`). -/
def lineCount (s : String) : Nat := (splitLines s).length
/-- A list with its final element removed when that element is the empty
string: the set of lines the diff presenter keeps from an unchanged run. -/
def dropTrailingBlank (l : List String) : List String :=
  if l.getLast? = some "" then l.dropLast else l
/-! ## Diff presenter (`CliDiffClient.displayDiff`) -/
/-- Classification of a rendered diff line (the `+` / `-` / blank prefix). -/
inductive EntryKind where
  | added : EntryKind
  | removed : EntryKind
  | unchanged : EntryKind
deriving DecidableEq
/-- One rendered line of the terminal diff: prefix kind, the line-number
annotation printed with it, and the line text. -/
structure DiffEntry where
  kind : EntryKind
  num : Nat
  text : String
deriving DecidableEq
/-- One change object produced by the line differ (`diffLines` of the npm
`diff` package): `added` / `removed` flags and the concatenated lines. -/
structure DiffPart where
  added : Bool
  removed : Bool
  value : String
deriving DecidableEq
/-- One `for (const line of lines)` loop of `displayDiff`: emits an entry per
line, annotated with the running counter `n`; the counter advances per line
exactly when `advance` is true (the added and unchanged loops advance it, the
removed loop does not). -/
def renderRun (kind : EntryKind) (advance : Bool) :
    List String → Nat → List DiffEntry × Nat
  | [], n => ([], n)
  | line :: rest, n =>
    let r := renderRun kind advance rest (if advance then n + 1 else n)
    (⟨kind, n, line⟩ :: r.1, r.2)
/-- The filter of the unchanged branch of `displayDiff`:
`lines.filter((line, index, arr) => line !== "" || index !== arr.length - 1)`. -/
def keepNonFinalBlank (arr : List String) : List String :=
  jsFilterIdx (fun line index => line != "" || index != arr.length - 1) 0 arr
/-- The body of `displayDiff`'s `for (const part of diff)` loop for one part. -/
def renderPart (part : DiffPart) (n : Nat) : List DiffEntry × Nat :=
  if part.added then
    renderRun EntryKind.added true
      ((splitLines part.value).filter (fun line => line != "")) n
  else if part.removed then
    renderRun EntryKind.removed false
      ((splitLines part.value).filter (fun line => line != "")) n
  else
    renderRun EntryKind.unchanged true (keepNonFinalBlank (splitLines part.value)) n
/-- `displayDiff`'s loop over all parts, threading the line counter. -/
def renderParts : List DiffPart → Nat → List DiffEntry × Nat
  | [], n => ([], n)
  | p :: ps, n =>
    let r := renderPart p n
    let rest := renderParts ps r.2
    (r.1 ++ rest.1, rest.2)
/-! ## Line differ

Modelled from the spec: the Line Differ (§4.2) is the npm `diff` package's
`diffLines`, which is a dependency, not part of this repository's sources.
Per the spec it is a line-granularity longest-common-subsequence diff whose
hunks cover every line of both inputs, with unchanged runs emitted once and
removed runs ordered before added runs at each divergence point; an empty
baseline yields an all-added sequence and an empty candidate an all-removed
one.  Lines are tokenized retaining their terminating newline, and
consecutive same-kind lines are concatenated into one part. -/
/-- Reattach the newlines to the pieces of `splitNl`: every piece but the
last regains its `'\n'`; an empty final piece (input ended in a newline)
produces no token. -/
def lineTokensGo : List (List Char) → List String
  | [] => []
  | [p] => if p = [] then [] else [String.mk p]
  | p :: q :: rest => String.mk (p ++ ['\n']) :: lineTokensGo (q :: rest)
/-- Modelled from the spec: line tokenization of the Line Differ (§4.2),
each line keeping its terminating newline. -/
def lineTokens (s : String) : List String := lineTokensGo (splitNl s.data)
/-- Modelled from the spec: length of a longest common subsequence, with
explicit fuel so the definition is structural. -/
def lcsLen : Nat → List String → List String → Nat
  | 0, _, _ => 0
  | _ + 1, [], _ => 0
  | _ + 1, _ :: _, [] => 0
  | fuel + 1, a :: as, b :: bs =>
    if a = b then lcsLen fuel as bs + 1
    else max (lcsLen fuel as (b :: bs)) (lcsLen fuel (a :: as) bs)
/-- Modelled from the spec: per-line diff operations
`(added flag, removed flag, line)` of an LCS line diff, removed before added
at each divergence point. -/
def diffOps : Nat → List String → List String → List (Bool × Bool × String)
  | 0, _, _ => []
  | _ + 1, [], ys => ys.map (fun y => (true, false, y))
  | _ + 1, x :: xs, [] => (x :: xs).map (fun x => (false, true, x))
  | fuel + 1, x :: xs, y :: ys =>
    if x = y then (false, false, x) :: diffOps fuel xs ys
    else if lcsLen fuel (x :: xs) ys ≤ lcsLen fuel xs (y :: ys) then
      (false, true, x) :: diffOps fuel xs (y :: ys)
    else
      (true, false, y) :: diffOps fuel (x :: xs) ys
/-- Modelled from the spec: group consecutive same-kind line operations into
one part, concatenating their values (unchanged runs emitted once). -/
def groupOps : List (Bool × Bool × String) → List DiffPart
  | [] => []
  | (a, r, s) :: rest =>
    match groupOps rest with
    | [] => [⟨a, r, s⟩]
    | p :: ps =>
      if a = p.added ∧ r = p.removed then ⟨a, r, s ++ p.value⟩ :: ps
      else ⟨a, r, s⟩ :: p :: ps
/-- Modelled from the spec: the Line Differ (§4.2), `diffLines(old, new)`. -/
def diffLines (oldContent newContent : String) : List DiffPart :=
  let xs := lineTokens oldContent
  let ys := lineTokens newContent
  groupOps (diffOps (xs.length + ys.length) xs ys)
/-- `displayDiff(oldContent, newContent)`: the rendered diff lines together
with the final value of the running line counter (which starts at 1). -/
def displayDiff (oldContent newContent : String) : List DiffEntry × Nat :=
  renderParts (diffLines oldContent newContent) 1
/-! ## Presenter lemmas -/
/-- How many rendered entries advance the line counter (added and unchanged
lines do, removed lines do not). -/
def countAdvances : List DiffEntry → Nat
  | [] => 0
  | e :: es => (if e.kind = EntryKind.removed then 0 else 1) + countAdvances es
/-- The rendered entries are consistently numbered starting from `n`: each
entry is annotated with the current counter, and the counter advances by one
after an added or unchanged entry and stays put after a removed entry. -/
def wellNumbered : Nat → List DiffEntry → Prop
  | _, [] => True
  | n, e :: es =>
    e.num = n ∧ wellNumbered (if e.kind = EntryKind.removed then n else n + 1) es
/-! ## Path canonicalization (`CliDiffClient.resolveFilePath`) -/
/-- `cs.split('/')` on a character list (used by path normalization). -/
def splitSlash : List Char → List (List Char)
  | [] => [[]]
  | c :: cs => if c = '/' then [] :: splitSlash cs else consHead c (splitSlash cs)
/-- POSIX `path.isAbsolute`: the path starts with `'/'`. -/
def isAbsolute (p : String) : Bool :=
  match p.data with
  | '/' :: _ => true
  | _ => false
/-- One step of POSIX path normalization: empty components and `"."` are
skipped, `".."` pops the last kept component (at the root it is dropped, as
Node does for absolute paths), anything else is kept. -/
def normStep (stack : List (List Char)) (comp : List Char) : List (List Char) :=
  if comp = [] ∨ comp = ['.'] then stack
  else if comp = ['.', '.'] then stack.dropLast
  else stack ++ [comp]
/-- Node `path.resolve(cwd, p)` for a relative `p`, as the source calls it:
join `cwd` and `p` and normalize.  The model assumes the configured working
directory is absolute (when it is not, Node would further prepend the process
working directory, which the client does not control). -/
def posixResolve (cwd p : String) : String :=
  let comps := splitSlash (cwd.data ++ '/' :: p.data)
  String.mk ('/' :: List.intercalate ['/'] (comps.foldl normStep []))
/-- `CliDiffClient.resolveFilePath`: absolute paths are used unchanged,
relative ones are resolved against the configured working directory. -/
def resolveFilePath (cwd filePath : String) : String :=
  if isAbsolute filePath then filePath else posixResolve cwd filePath
/-! ## The diff client state and operations -/
/-- State of a `CliDiffClient` together with the host filesystem it talks to:
`cwd` and the overlay store `openDocuments` are the class's fields
(`openDocuments : Map<string, string>`, modelled as a partial map); `fs` is
the filesystem content visible through `fs.readFile` / `fs.writeFile`
(`none` means reading the path throws). -/
structure DiffClientState where
  cwd : String
  openDocuments : String → Option String
  fs : String → Option String
/-- `map.set(k, v)` on the overlay store. -/
def mapSet (m : String → Option String) (k v : String) : String → Option String :=
  fun q => if q = k then some v else m q
/-- `map.delete(k)` on the overlay store. -/
def mapDelete (m : String → Option String) (k : String) : String → Option String :=
  fun q => if q = k then none else m q
/-- JavaScript `s || ""` for an optional string: `undefined` and `""` are
falsy, so both yield `""`. -/
def jsOrEmpty (o : Option String) : String :=
  match o with
  | none => ""
  | some s => if s = "" then "" else s
structure OpenDiffRequest where
  path : String
  content : Option String
structure OpenDiffResponse where
  id : Option String
  success : Bool
deriving DecidableEq
structure GetDocumentTextRequest where
  path : String
structure GetDocumentTextResponse where
  content : String
deriving DecidableEq
structure ReplaceTextRequest where
  path : String
  startLine : Option Int
  endLine : Option Int
  newText : Option String
structure ReplaceTextResponse where
  success : Bool
deriving DecidableEq
structure TruncateDocumentRequest where
  path : String
  maxLines : Option Int
structure TruncateDocumentResponse where
  success : Bool
deriving DecidableEq
structure SaveDocumentRequest where
  path : String
structure SaveDocumentResponse where
  success : Bool
deriving DecidableEq
structure OpenMultiFileDiffRequest where
  files : List OpenDiffRequest
structure OpenMultiFileDiffResponse where
  success : Bool
deriving DecidableEq
/-- `CliDiffClient.openDiff`: store `request.content || ""` in the overlay
store under the canonical path and report success.  The baseline read
(`originalContent`, with a missing file treated as `""`) feeds only the
terminal rendering, which is modelled separately by `displayDiff`. -/
def openDiff (st : DiffClientState) (request : OpenDiffRequest) :
    OpenDiffResponse × DiffClientState :=
  let filePath := resolveFilePath st.cwd request.path
  let newContent := jsOrEmpty request.content
  ({ id := some filePath, success := true },
   { st with openDocuments := mapSet st.openDocuments filePath newContent })
/-- `CliDiffClient.getDocumentText`: the overlay store wins; otherwise read
the filesystem; a failing read is caught and yields `""`. -/
def getDocumentText (st : DiffClientState) (request : GetDocumentTextRequest) :
    GetDocumentTextResponse :=
  let filePath := resolveFilePath st.cwd request.path
  match st.openDocuments filePath with
  | some content => { content }
  | none =>
    match st.fs filePath with
    | some content => { content }
    | none => { content := "" }
/-- The replacement lines of `replaceText`:
`request.newText ? request.newText.split("\n") : []` — both an absent and an
empty `newText` (falsy) give zero lines. -/
def newTextLines (newText : Option String) : List String :=
  match newText with
  | none => []
  | some t => if t = "" then [] else splitLines t
/-- `CliDiffClient.replaceText`.  The starting content is the overlay if
present, else the file's content, else `""` (the lazy read is guarded by its
own try/catch).  With both `startLine` and `endLine` present the splice is
`lines.slice(0, max(0, startLine - 1)) ++ newLines ++
lines.slice(min(lines.length, endLine))`; otherwise the whole content is
replaced by `newText || ""`. -/
def replaceText (st : DiffClientState) (request : ReplaceTextRequest) :
    ReplaceTextResponse × DiffClientState :=
  let filePath := resolveFilePath st.cwd request.path
  let currentContent :=
    match st.openDocuments filePath with
    | some c => c
    | none =>
      match st.fs filePath with
      | some c => c
      | none => ""
  let newContent :=
    match request.startLine, request.endLine with
    | some reqStart, some reqEnd =>
      let lines := splitLines currentContent
      let startLine := max 0 (reqStart - 1)
      let endLine := min (lines.length : Int) reqEnd
      let beforeLines := jsSlice lines 0 (some startLine)
      let afterLines := jsSlice lines endLine none
      let newLines := newTextLines request.newText
      joinLines (beforeLines ++ newLines ++ afterLines)
    | _, _ => jsOrEmpty request.newText
  ({ success := true },
   { st with openDocuments := mapSet st.openDocuments filePath newContent })
/-- The truncation applied to the current content:
`lines.slice(0, request.maxLines || lines.length)` joined back — `0` is falsy
in JavaScript, so `maxLines = 0` falls back to `lines.length`. -/
def truncateContent (currentContent : String) (maxLines : Option Int) : String :=
  let lines := splitLines currentContent
  let limit :=
    match maxLines with
    | none => (lines.length : Int)
    | some m => if m = 0 then (lines.length : Int) else m
  joinLines (jsSlice lines 0 (some limit))
/-- `CliDiffClient.truncateDocument`.  Unlike `replaceText`, the lazy
filesystem read is *not* wrapped in its own try/catch: a failing read escapes
to the outer catch, which reports failure and leaves the store untouched. -/
def truncateDocument (st : DiffClientState) (request : TruncateDocumentRequest) :
    TruncateDocumentResponse × DiffClientState :=
  let filePath := resolveFilePath st.cwd request.path
  let current? :=
    match st.openDocuments filePath with
    | some c => some c
    | none => st.fs filePath
  match current? with
  | none => ({ success := false }, st)
  | some currentContent =>
    ({ success := true },
     { st with
        openDocuments :=
          mapSet st.openDocuments filePath
            (truncateContent currentContent request.maxLines) })
/-- `CliDiffClient.saveDocument`.  `mkdirOk` and `writeOk` say whether
`fs.mkdir` and `fs.writeFile` succeed; either failure is caught and reported
as `success:false` with the store untouched.  The overlay entry is deleted
only after the write succeeded. -/
def saveDocument (st : DiffClientState) (mkdirOk writeOk : Bool)
    (request : SaveDocumentRequest) : SaveDocumentResponse × DiffClientState :=
  let filePath := resolveFilePath st.cwd request.path
  match st.openDocuments filePath with
  | none => ({ success := false }, st)
  | some content =>
    if mkdirOk then
      if writeOk then
        ({ success := true },
         { st with
            openDocuments := mapDelete st.openDocuments filePath,
            fs := mapSet st.fs filePath content })
      else ({ success := false }, st)
    else ({ success := false }, st)
/-- `CliDiffClient.openMultiFileDiff`: an empty (or missing) file list is
reported as failure; otherwise every entry is opened via `openDiff` in order
and the batch reports success. -/
def openMultiFileDiff (st : DiffClientState) (request : OpenMultiFileDiffRequest) :
    OpenMultiFileDiffResponse × DiffClientState :=
  match request.files with
  | [] => ({ success := false }, st)
  | _ :: _ =>
    ({ success := true },
     request.files.foldl (fun s f => (openDiff s f).2) st)
/-- The range-substitution law exactly as the specification states it: clamp
`startLine - 1` and `endLine` to `[0, lineCount]` as 0-based start and
exclusive end of the slice to remove, and splice in the lines of `newText`
(zero lines when `newText` is absent).  Stated from the spec's words, for
comparison with `replaceText`, which is translated from the source. -/
def replaceSpecSplice (content : String) (startLine endLine : Int)
    (newText : Option String) : String :=
  let lines := splitLines content
  let s := min (max (startLine - 1) 0).toNat lines.length
  let e := min (max endLine 0).toNat lines.length
  let newLines :=
    match newText with
    | none => []
    | some t => splitLines t
  joinLines (lines.take s ++ newLines ++ lines.drop e)
/-! ## General lemmas -/
theorem splitNl_ne_nil (cs : List Char) : splitNl cs ≠ [] := by
  cases cs with
  | nil => simp [splitNl]
  | cons c cs =>
    simp only [splitNl]
    split
    · simp
    · cases h : splitNl cs <;> simp [consHead]
theorem joinNl_cons_cons (x y : List Char) (ys : List (List Char)) :
    joinNl (x :: y :: ys) = x ++ '\n' :: joinNl (y :: ys) := rfl
/-- `join` undoes `split`. -/
theorem joinNl_splitNl (cs : List Char) : joinNl (splitNl cs) = cs := by
  induction cs with
  | nil => rfl
  | cons c cs ih =>
    simp only [splitNl]
    split
    · rename_i hc
      rcases h : splitNl cs with _ | ⟨l, ls⟩
      · exact absurd h (splitNl_ne_nil cs)
      · rw [h] at ih
        rw [joinNl_cons_cons, List.nil_append, hc, ih]
    · rcases h : splitNl cs with _ | ⟨l, ls⟩
      · exact absurd h (splitNl_ne_nil cs)
      · rw [h] at ih
        cases ls with
        | nil => simpa [consHead, joinNl] using ih
        | cons m ms =>
          rw [joinNl_cons_cons] at ih
          simp only [consHead, joinNl_cons_cons, List.cons_append, ih]
/-- Pieces produced by `splitNl` contain no newline. -/
theorem mem_splitNl_no_nl (cs : List Char) :
    ∀ x ∈ splitNl cs, '\n' ∉ x := by
  induction cs with
  | nil =>
    intro x hx
    simp only [splitNl, List.mem_singleton] at hx
    simp [hx]
  | cons c cs ih =>
    intro x hx
    by_cases hc : c = '\n'
    · simp only [splitNl, if_pos hc, List.mem_cons] at hx
      rcases hx with hx | hx
      · simp [hx]
      · exact ih x hx
    · rcases h : splitNl cs with _ | ⟨l, ls⟩
      · exact absurd h (splitNl_ne_nil cs)
      · simp only [splitNl, if_neg hc, h, consHead, List.mem_cons] at hx
        rcases hx with hx | hx
        · subst hx
          simp only [List.mem_cons, not_or]
          refine ⟨fun hh => hc hh.symm, ?_⟩
          exact ih l (h ▸ List.mem_cons_self l ls)
        · exact ih x (h ▸ List.mem_cons_of_mem l hx)
/-- Splitting a newline-free list yields one piece. -/
theorem splitNl_no_nl (cs : List Char) (h : '\n' ∉ cs) : splitNl cs = [cs] := by
  induction cs with
  | nil => rfl
  | cons c cs ih =>
    simp only [List.mem_cons, not_or] at h
    have hc : ¬c = '\n' := fun hh => h.1 hh.symm
    simp only [splitNl, if_neg hc, ih h.2, consHead]
/-- `split` undoes `join` on a nonempty list of newline-free pieces. -/
theorem splitNl_joinNl (l : List (List Char)) (hne : l ≠ [])
    (hfree : ∀ x ∈ l, '\n' ∉ x) : splitNl (joinNl l) = l := by
  induction l with
  | nil => exact absurd rfl hne
  | cons x ys ih =>
    cases ys with
    | nil =>
      simpa [joinNl] using splitNl_no_nl x (hfree x (List.mem_cons_self x []))
    | cons y ys =>
      rw [joinNl_cons_cons]
      have hx : '\n' ∉ x := hfree x (List.mem_cons_self x (y :: ys))
      have htail : splitNl (joinNl (y :: ys)) = y :: ys :=
        ih (by simp) (fun z hz => hfree z (List.mem_cons_of_mem x hz))
      clear ih hne hfree
      induction x with
      | nil => simp [splitNl, htail]
      | cons c cs ihx =>
        simp only [List.mem_cons, not_or] at hx
        have hc : ¬c = '\n' := fun hh => hx.1 hh.symm
        have hstep : splitNl ((c :: cs) ++ '\n' :: joinNl (y :: ys))
            = consHead c (splitNl (cs ++ '\n' :: joinNl (y :: ys))) := by
          simp only [List.cons_append, splitNl, if_neg hc]
          rfl
        rw [hstep, ihx hx.2]
        rfl
theorem splitLines_ne_nil (s : String) : splitLines s ≠ [] := by
  simp [splitLines, splitNl_ne_nil]
theorem joinLines_splitLines (s : String) : joinLines (splitLines s) = s := by
  unfold joinLines splitLines
  rw [List.map_map]
  have hid : (String.data ∘ fun l => String.mk l) = id := funext (fun l => rfl)
  rw [hid, List.map_id, joinNl_splitNl]
theorem mem_splitLines_no_nl (s : String) :
    ∀ x ∈ splitLines s, '\n' ∉ x.data := by
  intro x hx
  simp only [splitLines, List.mem_map] at hx
  obtain ⟨l, hl, rfl⟩ := hx
  exact mem_splitNl_no_nl s.data l hl
theorem splitLines_joinLines (l : List String) (hne : l ≠ [])
    (hfree : ∀ x ∈ l, '\n' ∉ x.data) : splitLines (joinLines l) = l := by
  unfold splitLines joinLines
  have hdata : (String.mk (joinNl (l.map String.data))).data
      = joinNl (l.map String.data) := rfl
  rw [hdata, splitNl_joinNl (l.map String.data)
      (by simpa using hne)
      (by intro x hx
          simp only [List.mem_map] at hx
          obtain ⟨y, hy, rfl⟩ := hx
          exact hfree y hy),
    List.map_map]
  have hid : ((fun l => String.mk l) ∘ String.data) = id := funext (fun s => rfl)
  rw [hid, List.map_id]
theorem lineCount_joinLines (l : List String) (hne : l ≠ [])
    (hfree : ∀ x ∈ l, '\n' ∉ x.data) : lineCount (joinLines l) = l.length := by
  rw [lineCount, splitLines_joinLines l hne hfree]
theorem dropTrailingBlank_cons (x : String) (xs : List String) (h : xs ≠ []) :
    dropTrailingBlank (x :: xs) = x :: dropTrailingBlank xs := by
  obtain ⟨y, ys, rfl⟩ := List.exists_cons_of_ne_nil h
  unfold dropTrailingBlank
  rw [List.getLast?_cons_cons]
  split
  · rw [List.dropLast_cons₂]
  · rfl
theorem jsFilterIdx_nonFinalBlank (l : List String) :
    ∀ i N : Nat, i + l.length = N →
      jsFilterIdx (fun line index => line != "" || index != N - 1) i l
        = dropTrailingBlank l := by
  induction l with
  | nil => intro i N _; simp [jsFilterIdx, dropTrailingBlank]
  | cons x xs ih =>
    intro i N hN
    cases xs with
    | nil =>
      simp only [List.length_cons, List.length_nil] at hN
      have hidx : (i != N - 1) = false := by
        rw [bne_eq_false_iff_eq]
        omega
      by_cases hx : x = ""
      · subst hx
        simp [jsFilterIdx, hidx, dropTrailingBlank]
      · have hxb : (x != "") = true := by rwa [bne_iff_ne]
        simp [jsFilterIdx, hidx, hxb, dropTrailingBlank, hx]
    | cons y ys =>
      have hidx : (i != N - 1) = true := by
        rw [bne_iff_ne]
        simp only [List.length_cons] at hN
        omega
      rw [jsFilterIdx, hidx, Bool.or_true, if_pos rfl,
        ih (i + 1) N (by simp only [List.length_cons] at hN ⊢; omega),
        dropTrailingBlank_cons x (y :: ys) (by simp)]
theorem keepNonFinalBlank_eq (arr : List String) :
    keepNonFinalBlank arr = dropTrailingBlank arr :=
  jsFilterIdx_nonFinalBlank arr 0 arr.length (by omega)
theorem countAdvances_append (a b : List DiffEntry) :
    countAdvances (a ++ b) = countAdvances a + countAdvances b := by
  induction a with
  | nil => simp [countAdvances]
  | cons e es ih =>
    rw [List.cons_append, countAdvances, countAdvances, ih]
    omega
theorem wellNumbered_append (es₁ es₂ : List DiffEntry) :
    ∀ n, wellNumbered n es₁ → wellNumbered (n + countAdvances es₁) es₂ →
      wellNumbered n (es₁ ++ es₂) := by
  induction es₁ with
  | nil =>
    intro n _ h2
    simpa [countAdvances] using h2
  | cons e es ih =>
    intro n h1 h2
    obtain ⟨hnum, hrest⟩ := h1
    refine ⟨hnum, ih _ hrest ?_⟩
    have harith : (if e.kind = EntryKind.removed then n else n + 1) + countAdvances es
        = n + ((if e.kind = EntryKind.removed then 0 else 1) + countAdvances es) := by
      split <;> omega
    rw [harith]
    exact h2
theorem renderRun_adv_spec (kind : EntryKind) (hk : kind ≠ EntryKind.removed) :
    ∀ (lines : List String) (n : Nat),
      wellNumbered n (renderRun kind true lines n).1
      ∧ (renderRun kind true lines n).2
          = n + countAdvances (renderRun kind true lines n).1 := by
  intro lines
  induction lines with
  | nil => intro n; exact ⟨trivial, rfl⟩
  | cons l ls ih =>
    intro n
    constructor
    · show (n = n)
        ∧ wellNumbered (if kind = EntryKind.removed then n else n + 1)
            (renderRun kind true ls (n + 1)).1
      refine ⟨rfl, ?_⟩
      rw [if_neg hk]
      exact (ih (n + 1)).1
    · show (renderRun kind true ls (n + 1)).2
        = n + ((if kind = EntryKind.removed then 0 else 1)
            + countAdvances (renderRun kind true ls (n + 1)).1)
      rw [if_neg hk]
      have h2 := (ih (n + 1)).2
      omega
theorem renderRun_removed_spec :
    ∀ (lines : List String) (n : Nat),
      wellNumbered n (renderRun EntryKind.removed false lines n).1
      ∧ (renderRun EntryKind.removed false lines n).2
          = n + countAdvances (renderRun EntryKind.removed false lines n).1 := by
  intro lines
  induction lines with
  | nil => intro n; exact ⟨trivial, rfl⟩
  | cons l ls ih =>
    intro n
    constructor
    · show (n = n)
        ∧ wellNumbered
            (if EntryKind.removed = EntryKind.removed then n else n + 1)
            (renderRun EntryKind.removed false ls n).1
      refine ⟨rfl, ?_⟩
      rw [if_pos rfl]
      exact (ih n).1
    · show (renderRun EntryKind.removed false ls n).2
        = n + ((if EntryKind.removed = EntryKind.removed then 0 else 1)
            + countAdvances (renderRun EntryKind.removed false ls n).1)
      rw [if_pos rfl]
      have h2 := (ih n).2
      omega
theorem renderPart_spec (part : DiffPart) (n : Nat) :
    wellNumbered n (renderPart part n).1
    ∧ (renderPart part n).2 = n + countAdvances (renderPart part n).1 := by
  unfold renderPart
  split
  · exact renderRun_adv_spec EntryKind.added (by simp) _ n
  · split
    · exact renderRun_removed_spec _ n
    · exact renderRun_adv_spec EntryKind.unchanged (by simp) _ n
theorem renderParts_spec :
    ∀ (parts : List DiffPart) (n : Nat),
      wellNumbered n (renderParts parts n).1
      ∧ (renderParts parts n).2 = n + countAdvances (renderParts parts n).1 := by
  intro parts
  induction parts with
  | nil => intro n; exact ⟨trivial, rfl⟩
  | cons p ps ih =>
    intro n
    simp only [renderParts]
    have hp := renderPart_spec p n
    have hr := ih (renderPart p n).2
    constructor
    · refine wellNumbered_append _ _ n hp.1 ?_
      rw [← hp.2]
      exact hr.1
    · rw [countAdvances_append, hr.2, hp.2]
      omega
theorem renderRun_map_text (kind : EntryKind) (advance : Bool) :
    ∀ (lines : List String) (n : Nat),
      (renderRun kind advance lines n).1.map DiffEntry.text = lines := by
  intro lines
  induction lines with
  | nil => intro n; rfl
  | cons l ls ih =>
    intro n
    simp only [renderRun, List.map_cons, ih]
theorem renderPart_texts (part : DiffPart) (n : Nat) :
    (renderPart part n).1.map DiffEntry.text
      = if part.added || part.removed then
          (splitLines part.value).filter (fun line => line != "")
        else dropTrailingBlank (splitLines part.value) := by
  unfold renderPart
  rcases ha : part.added
  · rcases hr : part.removed
    · simp [renderRun_map_text, keepNonFinalBlank_eq]
    · simp [renderRun_map_text]
  · simp [renderRun_map_text]

theorem jsOrEmpty_some (s : String) : jsOrEmpty (some s) = s := by
  by_cases h : s = "" <;> simp [jsOrEmpty, h]

theorem jsSlice_take {α : Type} (l : List α) (s : Int) (hs : 0 ≤ s) :
    jsSlice l 0 (some s) = l.take (min s.toNat l.length) := by
  simp only [jsSlice, jsIndex]
  rw [if_neg (by omega : ¬(0 : Int) < 0), if_neg (not_lt.mpr hs)]
  simp

theorem jsSlice_drop {α : Type} (l : List α) (e : Int) (he : 0 ≤ e)
    (hle : e ≤ (l.length : Int)) :
    jsSlice l e none = l.drop e.toNat := by
  simp only [jsSlice, jsIndex]
  rw [if_neg (not_lt.mpr he), List.take_length]
  congr 1
  omega

theorem renderParts_map_text (parts : List DiffPart) :
    ∀ n, (renderParts parts n).1.map DiffEntry.text
      = parts.flatMap (fun part =>
          if part.added || part.removed then
            (splitLines part.value).filter (fun line => line != "")
          else dropTrailingBlank (splitLines part.value)) := by
  induction parts with
  | nil => intro n; rfl
  | cons p ps ih =>
    intro n
    simp only [renderParts, List.map_append, renderPart_texts, List.flatMap_cons, ih]

/-! ## Claims -/

/-- C3: round trip on full replace — for every path `P` and every content
string `C`, `open(P, C)` followed by `getText(P)` returns exactly `C`. -/
theorem open_getText_roundtrip (st : DiffClientState) (p c : String) :
    getDocumentText ((openDiff st ⟨p, some c⟩).2) ⟨p⟩ = ⟨c⟩ := by
  by_cases h : c = "" <;>
    simp [getDocumentText, openDiff, mapSet, jsOrEmpty, h]

/-- C7: diff presenter line counter — every rendered diff is consistently
numbered from 1: each rendered line carries the current counter value, the
counter advances exactly once per added and per unchanged line and never for
a removed line (`wellNumbered`), so a removed line is annotated with the
counter value of the position it would occupy relative to the surrounding
context, and the final counter is 1 plus the number of added and unchanged
lines rendered (`countAdvances`). -/
theorem displayDiff_counter (oldContent newContent : String) :
    wellNumbered 1 (displayDiff oldContent newContent).1
    ∧ (displayDiff oldContent newContent).2
        = 1 + countAdvances (displayDiff oldContent newContent).1 :=
  renderParts_spec (diffLines oldContent newContent) 1

/-- C4: commit clears pending state — if `save(P)` succeeds then the overlay
entry for `P` is deleted from the store and a subsequent `save(P)` with no
intervening open fails; and `save(P)` fails whenever no overlay exists. -/
theorem save_clears_pending (st : DiffClientState) (mo wo mo' wo' : Bool)
    (p : String) :
    ((saveDocument st mo wo ⟨p⟩).1.success = true →
      (saveDocument st mo wo ⟨p⟩).2.openDocuments (resolveFilePath st.cwd p) = none
      ∧ (saveDocument (saveDocument st mo wo ⟨p⟩).2 mo' wo' ⟨p⟩).1.success = false)
    ∧ (st.openDocuments (resolveFilePath st.cwd p) = none →
      (saveDocument st mo wo ⟨p⟩).1.success = false) := by
  rcases hdoc : st.openDocuments (resolveFilePath st.cwd p) with _ | c
  · constructor
    · intro h
      simp [saveDocument, hdoc] at h
    · intro _
      simp [saveDocument, hdoc]
  · constructor
    · intro h
      cases mo <;> cases wo <;>
        simp_all [saveDocument, hdoc, mapDelete, mapSet]
    · intro hnone
      simp [hdoc] at hnone

/-- C4 witness: on a store holding `/a.txt`, a successful save deletes the
entry and a second save fails; on an empty store, save fails outright. -/
theorem save_clears_pending_wit :
    ((saveDocument ⟨"/", fun q => if q = "/a.txt" then some "x" else none,
        fun _ => none⟩ true true ⟨"/a.txt"⟩).2.openDocuments "/a.txt" = none
      ∧ (saveDocument (saveDocument ⟨"/", fun q => if q = "/a.txt" then some "x" else none,
          fun _ => none⟩ true true ⟨"/a.txt"⟩).2 true true ⟨"/a.txt"⟩).1.success = false)
    ∧ (saveDocument ⟨"/", fun _ => none, fun _ => none⟩ true true
        ⟨"/b.txt"⟩).1.success = false := by
  constructor
  · exact (save_clears_pending
      ⟨"/", fun q => if q = "/a.txt" then some "x" else none, fun _ => none⟩
      true true true true "/a.txt").1 (by decide)
  · exact (save_clears_pending ⟨"/", fun _ => none, fun _ => none⟩
      true true true true "/b.txt").2 (by decide)

/-- C10: save atomicity on failure — with an overlay open for `P`, a failed
save (directory creation or write failed) leaves the whole state unchanged,
and a successful save implies both effects succeeded, the entry is gone and
the working content reached the filesystem. -/
theorem save_failure_atomicity (st : DiffClientState) (mo wo : Bool)
    (p c : String)
    (hdoc : st.openDocuments (resolveFilePath st.cwd p) = some c) :
    ((saveDocument st mo wo ⟨p⟩).1.success = false →
      (saveDocument st mo wo ⟨p⟩).2 = st)
    ∧ ((saveDocument st mo wo ⟨p⟩).1.success = true →
      mo = true ∧ wo = true
      ∧ (saveDocument st mo wo ⟨p⟩).2.openDocuments (resolveFilePath st.cwd p) = none
      ∧ (saveDocument st mo wo ⟨p⟩).2.fs (resolveFilePath st.cwd p) = some c) := by
  cases mo <;> cases wo <;>
    constructor <;> intro h <;>
      simp_all [saveDocument, hdoc, mapDelete, mapSet]

/-- C10 witness: a save whose write fails leaves the state untouched, and a
fully successful save removes the overlay entry. -/
theorem save_failure_atomicity_wit :
    (saveDocument ⟨"/", fun q => if q = "/a.txt" then some "x" else none,
        fun _ => none⟩ false true ⟨"/a.txt"⟩).2
      = ⟨"/", fun q => if q = "/a.txt" then some "x" else none, fun _ => none⟩
    ∧ (saveDocument ⟨"/", fun q => if q = "/a.txt" then some "x" else none,
        fun _ => none⟩ true true ⟨"/a.txt"⟩).2.openDocuments "/a.txt" = none := by
  constructor
  · exact (save_failure_atomicity
      ⟨"/", fun q => if q = "/a.txt" then some "x" else none, fun _ => none⟩
      false true "/a.txt" "x" (by decide)).1 (by decide)
  · exact ((save_failure_atomicity
      ⟨"/", fun q => if q = "/a.txt" then some "x" else none, fun _ => none⟩
      true true "/a.txt" "x" (by decide)).2 (by decide)).2.2.1

/-- C9: asymmetric missing-file handling — on a path with no overlay whose
file cannot be read, `truncate` fails and leaves the state unchanged (its
lazy read is not guarded), whereas `replace` succeeds, starting from empty
content. -/
theorem missing_file_asymmetry (st : DiffClientState) (p : String)
    (n : Option Int)
    (hdoc : st.openDocuments (resolveFilePath st.cwd p) = none)
    (hfs : st.fs (resolveFilePath st.cwd p) = none) :
    ((truncateDocument st ⟨p, n⟩).1.success = false
      ∧ (truncateDocument st ⟨p, n⟩).2 = st)
    ∧ ((replaceText st ⟨p, none, none, none⟩).1.success = true
      ∧ (replaceText st ⟨p, none, none, none⟩).2.openDocuments
          (resolveFilePath st.cwd p) = some "") := by
  refine ⟨?_, ?_⟩
  · simp [truncateDocument, hdoc, hfs]
  · simp [replaceText, hdoc, hfs, jsOrEmpty, mapSet]

/-- C9 witness: on an empty store and empty filesystem, truncating `/m.txt`
fails while replacing on `/m.txt` succeeds. -/
theorem missing_file_asymmetry_wit :
    (truncateDocument ⟨"/", fun _ => none, fun _ => none⟩
        ⟨"/m.txt", some 2⟩).1.success = false
    ∧ (replaceText ⟨"/", fun _ => none, fun _ => none⟩
        ⟨"/m.txt", none, none, none⟩).1.success = true := by
  have h := missing_file_asymmetry ⟨"/", fun _ => none, fun _ => none⟩
    "/m.txt" (some 2) (by decide) (by decide)
  exact ⟨h.1.1, h.2.1⟩

/-- C5 counterexample: the claim extends batch success to the empty list, but
`openMultiFileDiff` reports failure for an empty file list even though
nothing threw. -/
theorem batch_success_cex :
    (openMultiFileDiff ⟨"/", fun _ => none, fun _ => none⟩ ⟨[]⟩).1.success
      = false := by decide

/-- C5 amended: for every *non-empty* file list, `openMany` processes each
entry via the single-file open operation in the given order and reports
success regardless of the individual outcomes; the empty list is instead
reported as a failure. -/
theorem batch_success_amended (st : DiffClientState)
    (files : List OpenDiffRequest) (hne : files ≠ []) :
    (openMultiFileDiff st ⟨files⟩).1.success = true
    ∧ (openMultiFileDiff st ⟨files⟩).2
        = files.foldl (fun s f => (openDiff s f).2) st := by
  cases files with
  | nil => exact absurd rfl hne
  | cons f fs => exact ⟨rfl, rfl⟩

/-- C5 witness: a two-file batch reports success and equals the fold of the
single-file opens. -/
theorem batch_success_amended_wit :
    (openMultiFileDiff ⟨"/", fun _ => none, fun _ => none⟩
        ⟨[⟨"/a.txt", some "1"⟩, ⟨"/b.txt", some "2"⟩]⟩).1.success = true
    ∧ (openMultiFileDiff ⟨"/", fun _ => none, fun _ => none⟩
        ⟨[⟨"/a.txt", some "1"⟩, ⟨"/b.txt", some "2"⟩]⟩).2
      = [(⟨"/a.txt", some "1"⟩ : OpenDiffRequest), ⟨"/b.txt", some "2"⟩].foldl
          (fun s f => (openDiff s f).2) ⟨"/", fun _ => none, fun _ => none⟩ :=
  batch_success_amended ⟨"/", fun _ => none, fun _ => none⟩
    [⟨"/a.txt", some "1"⟩, ⟨"/b.txt", some "2"⟩] (by simp)

/-- C6 counterexample: with baseline `""` and candidate `"a\n\nb"` the diff is
one added part, and the candidate's second line is a genuine non-final blank
line (index 1 of 3), yet no rendered line is blank — the added branch of the
presenter suppresses every blank line, not only trailing split artifacts. -/
theorem blankline_suppression_cex :
    (splitLines "a\n\nb")[1]? = some ""
    ∧ (splitLines "a\n\nb").length = 3
    ∧ diffLines "" "a\n\nb" = [⟨true, false, "a\n\nb"⟩]
    ∧ (displayDiff "" "a\n\nb").1
        = [⟨EntryKind.added, 1, "a"⟩, ⟨EntryKind.added, 2, "b"⟩]
    ∧ ((displayDiff "" "a\n\nb").1.all fun e => e.text != "") = true := by decide

/-- C6 amended: in every rendered diff, the lines kept are exactly: for added
and removed parts all non-blank lines (every blank line of the run is
suppressed, trailing split artifact or not); for unchanged parts all lines
except a single trailing blank (`dropTrailingBlank`). -/
theorem blankline_suppression_amended (oldContent newContent : String) :
    (displayDiff oldContent newContent).1.map DiffEntry.text
      = (diffLines oldContent newContent).flatMap (fun part =>
          if part.added || part.removed then
            (splitLines part.value).filter (fun line => line != "")
          else dropTrailingBlank (splitLines part.value)) :=
  renderParts_map_text (diffLines oldContent newContent) 1

/-- C8: path canonicalization — an absolute path is used as store key
unchanged, a relative path is resolved against the configured root; with root
`/root`, opening `./a.txt` and reading `/root/a.txt` hit the same overlay
entry. -/
theorem path_canonicalization (st : DiffClientState) (c : String)
    (hcwd : st.cwd = "/root") :
    (∀ p, isAbsolute p = true → resolveFilePath st.cwd p = p)
    ∧ resolveFilePath st.cwd "./a.txt" = "/root/a.txt"
    ∧ getDocumentText ((openDiff st ⟨"./a.txt", some c⟩).2) ⟨"/root/a.txt"⟩
        = ⟨c⟩ := by
  have hk : resolveFilePath st.cwd "./a.txt" = "/root/a.txt" := by
    rw [hcwd]; decide
  have hk2 : resolveFilePath st.cwd "/root/a.txt" = "/root/a.txt" := by
    simp [resolveFilePath, (by decide : isAbsolute "/root/a.txt" = true)]
  refine ⟨fun p hp => by simp [resolveFilePath, hp], hk, ?_⟩
  by_cases h : c = "" <;>
    simp [getDocumentText, openDiff, mapSet, jsOrEmpty, hk, hk2, h]

/-- C8 witness: the canonicalization facts at root `/root` with content
`"hello"`. -/
theorem path_canonicalization_wit :
    resolveFilePath "/root" "./a.txt" = "/root/a.txt"
    ∧ getDocumentText ((openDiff ⟨"/root", fun _ => none, fun _ => none⟩
        ⟨"./a.txt", some "hello"⟩).2) ⟨"/root/a.txt"⟩ = ⟨"hello"⟩ := by
  have h := path_canonicalization ⟨"/root", fun _ => none, fun _ => none⟩
    "hello" rfl
  exact ⟨h.2.1, h.2.2⟩

theorem truncateContent_lineCount (c : String) (n : Nat) (hn : 0 < n) :
    lineCount (truncateContent c (some (n : Int))) = min n (lineCount c) := by
  have h0 : ((n : Int)) ≠ 0 := Int.natCast_ne_zero.mpr hn.ne'
  have hlen : 0 < (splitLines c).length :=
    List.length_pos.mpr (splitLines_ne_nil c)
  have hsl : jsSlice (splitLines c) 0 (some ((n : Int)))
      = (splitLines c).take (min n (splitLines c).length) := by
    rw [jsSlice_take _ _ (by omega)]
    simp [Int.toNat_natCast]
  have heq : truncateContent c (some ((n : Int)))
      = joinLines ((splitLines c).take (min n (splitLines c).length)) := by
    show joinLines (jsSlice (splitLines c) 0
        (some (if ((n : Int)) = 0 then (((splitLines c).length : Nat) : Int)
          else ((n : Int))))) = _
    rw [if_neg h0, hsl]
  rw [heq, lineCount_joinLines]
  · rw [List.length_take]
    show min (min n (splitLines c).length) (splitLines c).length
        = min n (splitLines c).length
    omega
  · rw [ne_eq, List.take_eq_nil_iff]
    push_neg
    constructor
    · omega
    · exact splitLines_ne_nil c
  · intro x hx
    exact mem_splitLines_no_nl c x (List.take_subset _ _ hx)

theorem truncateContent_zero (c : String) : truncateContent c (some 0) = c := by
  show joinLines (jsSlice (splitLines c) 0
      (some (if (0 : Int) = 0 then (((splitLines c).length : Nat) : Int)
        else (0 : Int)))) = c
  rw [if_pos rfl, jsSlice_take _ _ (by omega)]
  have hmin : min ((((splitLines c).length : Nat) : Int)).toNat
      (splitLines c).length = (splitLines c).length := by omega
  rw [hmin, List.take_length, joinLines_splitLines]

/-- C1 counterexample: `truncate(P, 0)` does not leave zero lines — `0` is
falsy in `request.maxLines || lines.length`, so the slice bound falls back to
the full line count and the two-line content survives unchanged, where the
claim demands `min(0, 2) = 0` lines. -/
theorem truncate_monotonicity_cex :
    (truncateDocument ⟨"/", fun q => if q = "/a.txt" then some "a\nb" else none,
        fun _ => none⟩ ⟨"/a.txt", some 0⟩).1.success = true
    ∧ (truncateDocument ⟨"/", fun q => if q = "/a.txt" then some "a\nb" else none,
        fun _ => none⟩ ⟨"/a.txt", some 0⟩).2.openDocuments "/a.txt"
      = some "a\nb"
    ∧ lineCount "a\nb" = 2
    ∧ min 0 (lineCount "a\nb") = 0
    ∧ lineCount "a\nb" ≠ min 0 (lineCount "a\nb") := by decide

/-- C1 amended: with an overlay open for `P`, for every `maxLines = n ≥ 1`
truncation succeeds and the working content's line count becomes
`min(n, originalLineCount)`; `maxLines = 0` is instead treated as "no limit"
(`0` is falsy in `maxLines || lines.length`), so `truncate(P, 0)` leaves the
content — and hence the original line count — unchanged, not zero lines. -/
theorem truncate_monotonicity_amended (st : DiffClientState) (p c : String)
    (n : Nat) (hdoc : st.openDocuments (resolveFilePath st.cwd p) = some c)
    (hn : 0 < n) :
    (truncateDocument st ⟨p, some (n : Int)⟩).1.success = true
    ∧ (truncateDocument st ⟨p, some (n : Int)⟩).2.openDocuments
        (resolveFilePath st.cwd p) = some (truncateContent c (some (n : Int)))
    ∧ lineCount (truncateContent c (some (n : Int))) = min n (lineCount c)
    ∧ truncateContent c (some 0) = c := by
  refine ⟨?_, ?_, truncateContent_lineCount c n hn, truncateContent_zero c⟩
  · simp [truncateDocument, hdoc]
  · simp [truncateDocument, hdoc, mapSet]

/-- C1 witness: truncating a three-line overlay to 2 lines succeeds and
leaves `min 2 3 = 2` lines. -/
theorem truncate_monotonicity_amended_wit :
    (truncateDocument ⟨"/", fun q => if q = "/a.txt" then some "a\nb\nc" else none,
        fun _ => none⟩ ⟨"/a.txt", some ((2 : Nat) : Int)⟩).1.success = true
    ∧ lineCount (truncateContent "a\nb\nc" (some ((2 : Nat) : Int)))
        = min 2 (lineCount "a\nb\nc") := by
  have h := truncate_monotonicity_amended
    ⟨"/", fun q => if q = "/a.txt" then some "a\nb\nc" else none, fun _ => none⟩
    "/a.txt" "a\nb\nc" 2 (by decide) (by decide)
  exact ⟨h.1, h.2.2.1⟩

theorem replace_splice_eq_spec (c : String) (reqStart reqEnd : Int)
    (newText : Option String) (hEnd : 0 ≤ reqEnd) (hNew : newText ≠ some "") :
    joinLines (jsSlice (splitLines c) 0 (some (max 0 (reqStart - 1)))
        ++ newTextLines newText
        ++ jsSlice (splitLines c) (min (((splitLines c).length : Nat) : Int) reqEnd) none)
      = replaceSpecSplice c reqStart reqEnd newText := by
  have h1 : jsSlice (splitLines c) 0 (some (max 0 (reqStart - 1)))
      = (splitLines c).take (min (max (reqStart - 1) 0).toNat (splitLines c).length) := by
    rw [jsSlice_take _ _ (le_max_left 0 _)]
    congr 2
    omega
  have h2 : jsSlice (splitLines c) (min (((splitLines c).length : Nat) : Int) reqEnd) none
      = (splitLines c).drop (min (max reqEnd 0).toNat (splitLines c).length) := by
    rw [jsSlice_drop _ _ (le_min (by omega) hEnd) (min_le_left _ _)]
    congr 1
    omega
  rw [h1, h2]
  rcases newText with _ | t
  · rfl
  · have ht : t ≠ "" := fun hh => hNew (by rw [hh])
    simp [replaceSpecSplice, newTextLines, ht]

/-- C2 counterexample: the claim's clamping law fails on requests the code
accepts.  A negative `endLine` is not clamped to 0 — JavaScript `slice`
counts it from the end, so `replace(startLine=1, endLine=-1)` on four lines
leaves only `L4` where the claim's clamping predicts the content unchanged;
and `newText = ""` splices zero lines (it is falsy), not the one blank line
"the lines of newText" would be. -/
theorem replace_boundary_cex :
    (replaceText ⟨"/", fun q => if q = "/f" then some "L1\nL2\nL3\nL4" else none,
        fun _ => none⟩ ⟨"/f", some 1, some (-1), none⟩).2.openDocuments "/f"
      = some "L4"
    ∧ replaceSpecSplice "L1\nL2\nL3\nL4" 1 (-1) none = "L1\nL2\nL3\nL4"
    ∧ ("L4" : String) ≠ "L1\nL2\nL3\nL4"
    ∧ (replaceText ⟨"/", fun q => if q = "/f" then some "L1\nL2\nL3\nL4" else none,
        fun _ => none⟩ ⟨"/f", some 1, some 1, some ""⟩).2.openDocuments "/f"
      = some "L2\nL3\nL4"
    ∧ replaceSpecSplice "L1\nL2\nL3\nL4" 1 1 (some "") = "\nL2\nL3\nL4"
    ∧ ("L2\nL3\nL4" : String) ≠ "\nL2\nL3\nL4" := by decide

/-- C2 amended: for every working content and every request with both bounds
given, a *nonnegative* `endLine` and a `newText` that is not the empty string,
the new working content is exactly the spec's splice (`replaceSpecSplice`):
`startLine - 1` clamped to `[0, lineCount]` as 0-based start, `endLine`
clamped to `[0, lineCount]` as exclusive end, with the lines of `newText`
(zero lines if absent) spliced in; on `[L1,L2,L3,L4]`,
`replace(startLine=2, endLine=3, newText="X\nY")` yields `[L1,X,Y,L4]`.
A negative `endLine` instead selects from the end of the array (JavaScript
slice semantics), and an empty `newText` splices zero lines. -/
theorem replace_boundary_amended (st : DiffClientState) (p c : String)
    (reqStart reqEnd : Int) (newText : Option String)
    (hdoc : st.openDocuments (resolveFilePath st.cwd p) = some c)
    (hEnd : 0 ≤ reqEnd) (hNew : newText ≠ some "") :
    (replaceText st ⟨p, some reqStart, some reqEnd, newText⟩).1.success = true
    ∧ (replaceText st ⟨p, some reqStart, some reqEnd, newText⟩).2.openDocuments
        (resolveFilePath st.cwd p)
      = some (replaceSpecSplice c reqStart reqEnd newText) := by
  constructor
  · rfl
  · rw [← replace_splice_eq_spec c reqStart reqEnd newText hEnd hNew]
    simp [replaceText, hdoc, mapSet]

/-- C2 witness: the specification's own boundary example — replacing lines
2–3 of `[L1,L2,L3,L4]` with `"X\nY"` yields `[L1,X,Y,L4]`. -/
theorem replace_boundary_amended_wit :
    (replaceText ⟨"/", fun q => if q = "/f" then some "L1\nL2\nL3\nL4" else none,
        fun _ => none⟩ ⟨"/f", some 2, some 3, some "X\nY"⟩).2.openDocuments "/f"
      = some (replaceSpecSplice "L1\nL2\nL3\nL4" 2 3 (some "X\nY"))
    ∧ replaceSpecSplice "L1\nL2\nL3\nL4" 2 3 (some "X\nY") = "L1\nX\nY\nL4" := by
  have h := replace_boundary_amended
    ⟨"/", fun q => if q = "/f" then some "L1\nL2\nL3\nL4" else none, fun _ => none⟩
    "/f" "L1\nL2\nL3\nL4" 2 3 (some "X\nY") (by decide) (by decide) (by decide)
  exact ⟨h.2, by decide⟩
